import Mathlib

/-!
# Verification of the Citation Localization & Highlighting Engine

A shallow embedding, in Lean 4, of the matching core of the `citations-rags`
repository: the text normalizer, candidate generator, per-page candidate trial
loop, fuzzy block matcher, color classifier and citation parser of
`src/rag_pdf/pdf_highlighter.py`, and the two-pass offset resolver of
`src/rag_pdf/structured_pipeline.py`.

Python strings are modelled as `List Char` (one entry per code point, so list
length agrees with Python `len`); `String` wrappers are provided where the
source function takes a `str`.  Dictionaries with a fixed set of optional keys
become structures of `Option` fields, and Python's falsy-coalescing `or` is
modelled explicitly (`pyOrI`, `pyOrS`).  Functions that raise return `Except`.
-/

/-! ## Character classes

`isPySpace` models the character class matched by Python's `\s` (with
`re.UNICODE`, the default for `str` patterns) and stripped by `str.strip()`:
ASCII whitespace, the C1 separators, and the Unicode space separators. -/

def pySpaceChars : List Char :=
  [' ', '\t', '\n', '\x0b', '\x0c', '\r',
   '\x1c', '\x1d', '\x1e', '\x1f', '\x85', '\xa0', ' ',
   ' ', ' ', ' ', ' ', ' ', ' ', ' ',
   ' ', ' ', ' ', ' ', ' ', ' ', ' ',
   ' ', '　']

def isPySpace (c : Char) : Bool := pySpaceChars.contains c

/-- Python `\w` (word character), restricted to the ASCII range: the citation
texts the claims quantify over are ASCII, so letters, digits and `_`. -/
def isWordChar (c : Char) : Bool := c.isAlphanum || c == '_'

/-- The continuation class of the salience-phrase token regex
`\w[\w%:/.-]*` in `_candidate_snippets`. -/
def isTokChar (c : Char) : Bool :=
  isWordChar c || c == '%' || c == ':' || c == '/' || c == '.' || c == '-'

/-- Python `str.lower()` on one character, ASCII range (the recognized color
and entity names are ASCII). -/
def pyToLower (c : Char) : Char :=
  if 'A' ≤ c ∧ c ≤ 'Z' then Char.ofNat (c.toNat + 32) else c

/-- Python `str.lower()` over a character list. -/
def lowerL (l : List Char) : List Char := l.map pyToLower

/-! ## Text Normalizer: `_normalize_text` (pdf_highlighter.py lines 57-64)

```python
def _normalize_text(t: str) -> str:
    t = t.replace("\u0002", " ")
    t = re.sub(r"-\s*\n", "", t)  # fix hyphenated line breaks
    t = t.replace("\n", " ")
    t = re.sub(r"\s+", " ", t)
    return t.strip()
```
-/

/-- Step 1: `t.replace("\u0002", " ")`. -/
def replaceCtrl (l : List Char) : List Char :=
  l.map fun c => if c = '\x02' then ' ' else c

/-- Step 2: one left-to-right, non-overlapping pass of
`re.sub(r"-\s*\n", "", t)`.  At a `'-'` whose following whitespace run
contains a `'\n'`, the greedy `\s*` (followed by the literal `\n`)
consumes the run up to and including its **last** `'\n'`; the match is
deleted and scanning resumes after it.  Recursion is by fuel; each match
consumes at least two characters, so `l.length` fuel always completes the
scan (and every property proved below holds for every fuel value). -/
def dehyphenF : Nat → List Char → List Char
  | 0, l => l
  | _ + 1, [] => []
  | fuel + 1, c :: t =>
    if c = '-' then
      let r := t.takeWhile isPySpace
      if r.contains '\n' then
        dehyphenF fuel ((r.reverse.takeWhile (· != '\n')).reverse ++ t.dropWhile isPySpace)
      else
        c :: dehyphenF fuel t
    else
      c :: dehyphenF fuel t

/-- Step 3: `t.replace("\n", " ")`. -/
def replaceNl (l : List Char) : List Char :=
  l.map fun c => if c = '\n' then ' ' else c

/-- Step 4: `re.sub(r"\s+", " ", t)` — each maximal whitespace run becomes a
single space.  The flag records whether the previous character belonged to a
whitespace run whose replacement space was already emitted. -/
def collapseAux : Bool → List Char → List Char
  | _, [] => []
  | b, c :: t =>
    if isPySpace c then
      (if b then collapseAux true t else ' ' :: collapseAux true t)
    else
      c :: collapseAux false t

def collapseWs (l : List Char) : List Char := collapseAux false l

/-- Step 5: `t.strip()`. -/
def stripWs (l : List Char) : List Char :=
  ((l.dropWhile isPySpace).reverse.dropWhile isPySpace).reverse

/-- The normalizer at the character-list level. -/
def normChars (l : List Char) : List Char :=
  stripWs (collapseWs (replaceNl (dehyphenF (replaceCtrl l).length (replaceCtrl l))))

/-- The function `_normalize_text` (pdf_highlighter.py lines 57-64). -/
def _normalize_text (s : String) : String := ⟨normChars s.data⟩

/-- The adjacency relation of a collapsed string: no two neighbouring
whitespace characters. -/
def NoWsPair (a b : Char) : Prop := ¬(isPySpace a = true ∧ isPySpace b = true)

/-! ## Substring search (Python `str.find`) -/

/-- Test `begWith nd hay`: `hay` starts with `nd`, character by character. -/
def begWith : List Char → List Char → Bool
  | [], _ => true
  | _ :: _, [] => false
  | c :: n, d :: h => c == d && begWith n h

/-- Python `hay.find(nd)`: index of the leftmost occurrence of `nd` in
`hay`, if any (`strFind nd hay`). -/
def strFind (n : List Char) : List Char → Option Nat
  | [] => if begWith n [] then some 0 else none
  | c :: t => if begWith n (c :: t) then some 0 else (strFind n t).map (· + 1)

/-- Spec-side: `nd` occurs verbatim as a contiguous substring of `hay`. -/
def OccursIn (nd hay : List Char) : Prop := ∃ pre suf, hay = pre ++ nd ++ suf

/-! ## Offset Resolver (structured_pipeline.py lines 216-244) -/

/-- The function `_find_offsets` (structured_pipeline.py lines 216-222). -/
def _find_offsets (text quote : List Char) : Option (Nat × Nat) :=
  if text = [] ∨ quote = [] then none
  else
    match strFind quote text with
    | none => none
    | some i => some (i, i + quote.length)

/-- The provenance record built by `resolve_quote` (field names as in the
Python dict literals). -/
structure ProvRes where
  offset_status : String
  source : String
  start_offset : Option Nat
  end_offset : Option Nat
  page : Option Nat
deriving DecidableEq

/-- Python `x or default` for an optional string value. -/
def pyOrStrD (a : Option String) (d : String) : String :=
  match a with
  | some s => if s = "" then d else s
  | none => d

/-- Pass 2 of `resolve_quote`:
`for i, ptxt in enumerate(pages, start=1): ...` (lines 239-242). -/
def scanPages (q : List Char) : List String → Nat → Option (Nat × Nat × Nat)
  | [], _ => none
  | p :: rest, i =>
    match _find_offsets p.data q with
    | some (a, b) => some (a, b, i)
    | none => scanPages q rest (i + 1)

/-- The closure `resolve_quote` inside `two_pass_provenance_resolution`
(structured_pipeline.py lines 231-244).  The record's `quote` field is the
first argument (`none` models an absent key); `obj.get('quote') or ''` is
`pyOrStrD`. -/
def resolve_quote (quote : Option String) (linear : String) (pages : List String) :
    ProvRes :=
  let q := (pyOrStrD quote "").data
  match _find_offsets linear.data q with
  | some (a, b) => ⟨"matched", "text", some a, some b, none⟩
  | none =>
    match scanPages q pages 1 with
    | some (a, b, i) => ⟨"matched", "vision", some a, some b, some i⟩
    | none => ⟨"unmatched", "text", none, none, none⟩

/-! ## Candidate Generator (pdf_highlighter.py lines 67-95) -/

/-- Model of `re.findall` for a token regex of shape `P Q*`: the start class `P`
is contained in the continuation class `Q` (true of both patterns the source
uses: `\w+`, and `\w[\w%:/.-]*`); `cur` holds the token being read, reversed.
A character ending a token cannot start the next one (it fails `Q ⊇ P`), so
the scan drops it and continues. -/
def tokAux (p q : Char → Bool) : Option (List Char) → List Char → List (List Char)
  | none, [] => []
  | some w, [] => [w.reverse]
  | none, c :: t => if p c then tokAux p q (some [c]) t else tokAux p q none t
  | some w, c :: t =>
    if q c then tokAux p q (some (c :: w)) t
    else w.reverse :: tokAux p q none t

def pyFindall (p q : Char → Bool) (l : List Char) : List (List Char) :=
  tokAux p q none l

/-- Python `sorted(key=len, reverse=True)`: stable, longest first.  An
element is inserted before the equal-length elements already placed, which
came later in the original list, preserving their relative order. -/
def insertDesc (x : List Char) : List (List Char) → List (List Char)
  | [] => [x]
  | y :: t => if y.length ≤ x.length then x :: y :: t else y :: insertDesc x t

def sortByLenDesc : List (List Char) → List (List Char)
  | [] => []
  | x :: t => insertDesc x (sortByLenDesc t)

/-- Python `str.strip(chars)`: remove characters of `cs` from both ends. -/
def pyStripChars (cs : List Char) (l : List Char) : List Char :=
  ((l.dropWhile cs.contains).reverse.dropWhile cs.contains).reverse

/-- The character set of `norm.strip("\"'“”‘’()[]{}")`. -/
def quoteStripChars : List Char :=
  ['\x22', '\x27', '“', '”', '‘', '’', '(', ')', '[', ']', '\x7b', '\x7d']

/-- The function `_candidate_snippets` (pdf_highlighter.py lines 67-95). -/
def _candidate_snippets (full : List Char) : List (List Char) :=
  if full = [] then []
  else
    let norm := normChars full
    if norm = [] then []
    else
      let c1 := [norm]
      let c2 :=
        if 300 < norm.length then
          let c2a := c1 ++ [norm.take 200]
          let mid := (norm.drop (norm.length / 4)).take 200
          if mid ∉ c2a then c2a ++ [mid] else c2a
        else c1
      let stripped := pyStripChars quoteStripChars norm
      let c3 := if stripped ≠ [] ∧ stripped ∉ c2 then c2 ++ [stripped] else c2
      let words :=
        (pyFindall isWordChar isTokChar norm).filter (fun w => 4 < w.length)
      if words ≠ [] then
        let ws := (sortByLenDesc words).take 6
        let phrase := List.intercalate [' '] (ws.take 4)
        if 20 < phrase.length ∧ phrase ∉ c3 then c3 ++ [phrase] else c3
      else c3

/-! ## Color/Entity Classifier (pdf_highlighter.py lines 98-127) -/

/-- RGB triple; the source's float components are exactly these rationals. -/
abbrev Rgb := ℚ × ℚ × ℚ

/-- The map `COLOR_NAMES` (lines 109-119): `none` for an unrecognized name. -/
def COLOR_NAMES (s : String) : Option Rgb :=
  if s = "yellow" then some (1, 1, 0)
  else if s = "green" then some (0, 1, 0)
  else if s = "blue" then some (0, 1/2, 1)
  else if s = "red" then some (1, 0, 0)
  else if s = "purple" then some (1/2, 0, 1)
  else if s = "orange" then some (1, 1/2, 0)
  else if s = "magenta" then some (1, 0, 1)
  else if s = "cyan" then some (0, 1, 1)
  else if s = "gray" then some (1/2, 1/2, 1/2)
  else none

/-- The map `ENTITY_COLORS` (lines 99-107), including its `"default"` entry. -/
def ENTITY_COLORS (s : String) : Option Rgb :=
  if s = "variable" then some (1, 1, 0)
  else if s = "method" then some (0, 1, 0)
  else if s = "result" then some (0, 1/2, 1)
  else if s = "conclusion" then some (1, 1/2, 0)
  else if s = "data" then some (1, 0, 1)
  else if s = "reference" then some (1/2, 1/2, 1/2)
  else if s = "default" then some (1, 1, 0)
  else none

/-- Python truthiness of an optional string (`None` and `""` are falsy). -/
def pyTruthyS : Option String → Bool
  | none => false
  | some s => s != ""

/-- Python `a or b` on optional strings. -/
def pyOrS (a b : Option String) : Option String := if pyTruthyS a then a else b

/-- Python truthiness of an optional int (`None` and `0` are falsy). -/
def pyTruthyI : Option Int → Bool
  | none => false
  | some n => n != 0

/-- Python `a or b` on optional ints: keeps `a` when truthy, otherwise
yields `b` unchanged (even when `b` is falsy, e.g. `Some 0`). -/
def pyOrI (a b : Option Int) : Option Int := if pyTruthyI a then a else b

/-- The dataclass `PageLocationCitation` (pdf_highlighter.py lines 21-27). -/
structure PageLocationCitation where
  cited_text : String
  start_page_number : Int
  end_page_number : Option Int
  entity_type : Option String
  color : Option String
deriving DecidableEq

def lowerS (s : String) : String := ⟨lowerL s.data⟩

/-- The function `_get_color_for_citation` (pdf_highlighter.py lines 121-127). -/
def _get_color_for_citation (citation : PageLocationCitation) : Rgb :=
  let cl := lowerS (citation.color.getD "")
  if pyTruthyS citation.color && (COLOR_NAMES cl).isSome then
    (COLOR_NAMES cl).getD (1, 1, 0)
  else
    let el := lowerS (citation.entity_type.getD "")
    if pyTruthyS citation.entity_type && (ENTITY_COLORS el).isSome then
      (ENTITY_COLORS el).getD (1, 1, 0)
    else (ENTITY_COLORS "default").getD (1, 1, 0)

/-! ## Citation parsing (pdf_highlighter.py lines 29-54, 285-302) -/

/-- The nested `page_location` dict. -/
structure PageLoc where
  start_page_number : Option Int
  page_number : Option Int
  end_page_number : Option Int
deriving DecidableEq

/-- A loosely-keyed citation record: each alias key the parser consults,
`none` when absent. -/
structure GenericCitation where
  cited_text : Option String
  text : Option String
  start_page_number : Option Int
  page_number : Option Int
  page : Option Int
  end_page_number : Option Int
  page_location : Option PageLoc
  entity_type : Option String
  etype : Option String
  category : Option String
  color : Option String
  highlight_color : Option String
deriving DecidableEq

/-- The errors the module raises (all `ValueError` in Python, distinguished
by their messages): `malformedCitation` is
`"Citation missing page numbers: ..."` (line 42), `formatErr` is
`"Input is neither a valid file path nor a valid JSON string."` (line 297),
`unsupportedFormat` is `"Unsupported citations json format. ..."` (line 302),
and `jsonDecodeErr` is an uncaught `json.JSONDecodeError`. -/
inductive HighlightErr
  | malformedCitation
  | formatErr
  | unsupportedFormat
  | jsonDecodeErr
deriving DecidableEq

/-- The classmethod `PageLocationCitation.from_generic` (pdf_highlighter.py lines 29-54).
Page values are modelled as integers (the `int(...)` coercions are
identities); `obj.get("page_location") or {}` is `Option.getD` of an
all-`none` record, since an empty dict is falsy and agrees with `{}` on
every `.get`. -/
def from_generic (o : GenericCitation) : Except HighlightErr PageLocationCitation :=
  let cited := pyOrStrD (pyOrS o.cited_text o.text) ""
  let sp0 := pyOrI (pyOrI o.start_page_number o.page_number) o.page
  let spEp : Option Int × Option Int :=
    match sp0 with
    | none =>
      let loc := o.page_location.getD ⟨none, none, none⟩
      (pyOrI loc.start_page_number loc.page_number, loc.end_page_number)
    | some v => (some v, o.end_page_number)
  match spEp.1 with
  | none => .error .malformedCitation
  | some sp =>
    let ep := spEp.2.getD sp
    .ok ⟨cited, sp, some ep,
      pyOrS (pyOrS o.entity_type o.etype) o.category,
      pyOrS o.color o.highlight_color⟩

/-- A JSON value (for the citations payload). -/
inductive JsonVal
  | jnull
  | jbool (b : Bool)
  | jnum (n : Int)
  | jstr (s : String)
  | jarr (items : List JsonVal)
  | jobj (fields : List (String × JsonVal))

/-- Python dict lookup over the parsed object's key/value pairs. -/
def jsonGet (fields : List (String × JsonVal)) (k : String) : Option JsonVal :=
  (fields.find? (fun kv => kv.1 == k)).map (·.2)

/-- Shape dispatch of `load_citations_from_json`
(pdf_highlighter.py lines 298-302). -/
def citationsShape : JsonVal → Except HighlightErr JsonVal
  | .jobj fields =>
    match jsonGet fields "citations" with
    | some v => .ok v
    | none => .error .unsupportedFormat
  | .jarr items => .ok (.jarr items)
  | _ => .error .unsupportedFormat

/-- The function `load_citations_from_json` (pdf_highlighter.py lines 285-302), abstracted
over the file system (`readFile p = none` models `FileNotFoundError`) and the
JSON parser (`parseJson s = none` models a `json.JSONDecodeError`).  When the
file opens but its content fails to parse, the decode error propagates
uncaught (`jsonDecodeErr`); when the input is not a readable file and also
fails to parse inline, the code raises the distinct format `ValueError`
(`formatErr`). -/
def load_citations_from_json (readFile : String → Option String)
    (parseJson : String → Option JsonVal) (path_or_json : String) :
    Except HighlightErr JsonVal :=
  match readFile path_or_json with
  | some content =>
    match parseJson content with
    | some data => citationsShape data
    | none => .error .jsonDecodeErr
  | none =>
    match parseJson path_or_json with
    | some data => citationsShape data
    | none => .error .formatErr

/-! ## Fuzzy Block Matcher (pdf_highlighter.py lines 161-227) -/

/-- One span of `page.get_text("dict")`: a bounding box and its text. -/
structure FSpan where
  bbox : ℚ × ℚ × ℚ × ℚ
  text : String
deriving DecidableEq

structure FLine where
  spans : List FSpan
deriving DecidableEq

/-- One block: `hasLines` models `"lines" in block`. -/
structure FBlock where
  hasLines : Bool
  lines : List FLine
deriving DecidableEq

def blockSpans (b : FBlock) : List FSpan := (b.lines.map FLine.spans).flatten

/-- Python `block_text`: every span's text followed by a space (lines 190-192). -/
def blockText (b : FBlock) : List Char :=
  ((blockSpans b).map (fun s => s.text.data ++ [' '])).flatten

/-- Python `block_norm = _normalize_text(block_text).lower()` (line 204). -/
def blockNorm (b : FBlock) : List Char := lowerL (normChars (blockText b))

/-- Python `matches = sum(1 for word in target_words if word in block_norm)`. -/
def matchCount (tws : List (List Char)) (bn : List Char) : Nat :=
  (tws.filter (fun w => (strFind w bn).isSome)).length

/-- Target-word extraction of `_fuzzy_rectangle_highlight` (lines 171-178):
`\w+` tokens of the lowercased normalized citation text, keeping those of
length > 3. -/
def fuzzyTargetWords (text : List Char) : List (List Char) :=
  (pyFindall isWordChar isWordChar (lowerL (normChars text))).filter
    (fun w => 3 < w.length)

/-- The per-block loop of `_fuzzy_rectangle_highlight` (lines 182-227).
A block without a `"lines"` key, or with no span (so `block_bbox is None`),
is skipped.  The Python guard `matches >= min(3, len(target_words) * 0.6)`
is taken ×10: this is exact, because for `n ≥ 5` the minimum is the integer
3, and for `n ≤ 4` the float `0.6 * n` and the rational `6n/10` lie strictly
between the same consecutive integers, so comparison against the integer
`matches` agrees. -/
def fuzzyBlockLoop (tws : List (List Char)) : List FBlock → Nat
  | [] => 0
  | b :: rest =>
    if b.hasLines = false then fuzzyBlockLoop tws rest
    else if blockSpans b = [] then fuzzyBlockLoop tws rest
    else if min 30 (6 * tws.length) ≤ 10 * matchCount tws (blockNorm b) then
      1 + fuzzyBlockLoop tws rest
    else fuzzyBlockLoop tws rest

/-- The function `_fuzzy_rectangle_highlight` (pdf_highlighter.py lines 161-227),
returning the number of rectangles drawn (every `add_rect_annot` is modelled
as succeeding). -/
def _fuzzy_rectangle_highlight (blocks : List FBlock) (text : List Char) : Nat :=
  let norm_target := lowerL (normChars text)
  if norm_target.length < 10 then 0
  else
    let target_words := fuzzyTargetWords text
    if target_words.length < 2 then 0
    else fuzzyBlockLoop target_words blocks

/-- Spec-side (claim C1): the block threshold as the claim words it,
`max(3, ceil(0.6 * target_word_count))`. -/
def claimBlockThreshold (n : Nat) : Nat := max 3 ((6 * n + 9) / 10)

/-! ## Per-page candidate trial loop (pdf_highlighter.py lines 253-276) -/

/-- The exact-search loop over candidate snippets (lines 262-269): `f`
abstracts `_search_and_highlight(page, snippet, cit)` — the number of hits a
snippet produces on the page; `thr` is `min(200, len(_normalize_text(...)))`.
Returns `(hit_this_page, found_exact_match)` of the exact phase. -/
def candidateLoop (f : List Char → Nat) (thr : Nat) : List (List Char) → Nat × Bool
  | [] => (0, false)
  | s :: rest =>
    let hits := f s
    if 0 < hits then
      if thr ≤ s.length then (hits, true)
      else (hits + (candidateLoop f thr rest).1, true)
    else ((candidateLoop f thr rest).1, (candidateLoop f thr rest).2)

/-- The exact phase for one citation on one page. -/
def exactPhase (f : List Char → Nat) (cited : List Char) : Nat × Bool :=
  candidateLoop f (min 200 (normChars cited).length) (_candidate_snippets cited)

/-- One page's processing for one citation (lines 256-276): exact phase,
then the fuzzy fallback guard
`if not found_exact_match and len(_normalize_text(cit.cited_text)) > 20`.
The second component records whether `_fuzzy_rectangle_highlight` ran. -/
def processPage (f : List Char → Nat) (blocks : List FBlock) (cited : List Char) :
    Nat × Bool :=
  let r := exactPhase f cited
  if r.2 = false ∧ 20 < (normChars cited).length then
    (r.1 + _fuzzy_rectangle_highlight blocks cited, true)
  else (r.1, false)

/-- Spec-side (claim C4): the candidates actually tried — the prefix of the
generator output through the first candidate that both produces a hit and
has length at least the threshold. -/
def triedCands (f : List Char → Nat) (thr : Nat) : List (List Char) → List (List Char)
  | [] => []
  | s :: rest =>
    s :: (if 0 < f s ∧ thr ≤ s.length then [] else triedCands f thr rest)

/-! ## Part II: theorems -/

/-! ### Generic list helper lemmas -/

theorem dropWhile_head_false {α : Type} (p : α → Bool) :
    ∀ (l : List α), ∀ c ∈ (l.dropWhile p).head?, p c = false := by
  intro l
  induction l with
  | nil => intro c hc; simp [List.dropWhile] at hc
  | cons a t ih =>
    intro c hc
    by_cases h : p a
    · rw [List.dropWhile_cons, if_pos h] at hc
      exact ih c hc
    · rw [List.dropWhile_cons, if_neg h] at hc
      simp at hc
      subst hc
      exact Bool.eq_false_iff.mpr h

theorem dropWhile_eq_self {α : Type} (p : α → Bool) (l : List α)
    (h : ∀ c ∈ l.head?, p c = false) : l.dropWhile p = l := by
  cases l with
  | nil => rfl
  | cons a t =>
    have ha : p a = false := h a (by simp)
    rw [List.dropWhile_cons, if_neg (by simp [ha])]

theorem mem_of_mem_dropWhile {α : Type} (p : α → Bool) {c : α} {l : List α}
    (h : c ∈ l.dropWhile p) : c ∈ l := by
  have h2 : c ∈ l.takeWhile p ++ l.dropWhile p := List.mem_append_right _ h
  rwa [List.takeWhile_append_dropWhile] at h2

theorem mem_of_mem_takeWhile {α : Type} (p : α → Bool) {c : α} {l : List α}
    (h : c ∈ l.takeWhile p) : c ∈ l := by
  have h2 : c ∈ l.takeWhile p ++ l.dropWhile p := List.mem_append_left _ h
  rwa [List.takeWhile_append_dropWhile] at h2

/-! ### Invariants of the normalizer output -/

theorem noWsPair_symm {a b : Char} (h : NoWsPair a b) : NoWsPair b a := by
  intro ⟨h1, h2⟩; exact h ⟨h2, h1⟩

theorem mem_collapseAux {c : Char} :
    ∀ (b : Bool) (l : List Char), c ∈ collapseAux b l →
      c = ' ' ∨ (c ∈ l ∧ isPySpace c = false) := by
  intro b l
  induction l generalizing b with
  | nil => intro h; simp [collapseAux] at h
  | cons a t ih =>
    intro h
    by_cases ha : isPySpace a
    · rw [collapseAux, if_pos ha] at h
      cases b with
      | true =>
        rcases ih true h with h' | ⟨hm, hw⟩
        · exact Or.inl h'
        · exact Or.inr ⟨List.mem_cons_of_mem a hm, hw⟩
      | false =>
        rcases List.mem_cons.mp h with h' | h'
        · exact Or.inl h'
        · rcases ih true h' with h'' | ⟨hm, hw⟩
          · exact Or.inl h''
          · exact Or.inr ⟨List.mem_cons_of_mem a hm, hw⟩
    · rw [collapseAux, if_neg ha] at h
      rcases List.mem_cons.mp h with h' | h'
      · subst h'; exact Or.inr ⟨List.mem_cons_self c t, Bool.eq_false_iff.mpr ha⟩
      · rcases ih false h' with h'' | ⟨hm, hw⟩
        · exact Or.inl h''
        · exact Or.inr ⟨List.mem_cons_of_mem a hm, hw⟩

theorem head_collapseAux_true :
    ∀ (l : List Char), ∀ y ∈ (collapseAux true l).head?, isPySpace y = false := by
  intro l
  induction l with
  | nil => intro y hy; simp [collapseAux] at hy
  | cons a t ih =>
    intro y hy
    by_cases ha : isPySpace a
    · rw [collapseAux, if_pos ha] at hy
      exact ih y hy
    · rw [collapseAux, if_neg ha] at hy
      simp at hy
      subst hy
      exact Bool.eq_false_iff.mpr ha

theorem chain'_collapseAux : ∀ (b : Bool) (l : List Char),
    List.Chain' NoWsPair (collapseAux b l) := by
  intro b l
  induction l generalizing b with
  | nil => simp [collapseAux]
  | cons a t ih =>
    by_cases ha : isPySpace a
    · rw [collapseAux, if_pos ha]
      cases b with
      | true => exact ih true
      | false =>
        refine List.chain'_cons'.mpr ⟨?_, ih true⟩
        intro y hy
        have := head_collapseAux_true t y hy
        intro ⟨_, h2⟩
        simp [this] at h2
    · rw [collapseAux, if_neg ha]
      refine List.chain'_cons'.mpr ⟨?_, ih false⟩
      intro y _
      intro ⟨h1, _⟩
      exact ha (by simp [h1])

theorem collapseAux_true_eq_false (l : List Char)
    (h : ∀ y ∈ l.head?, isPySpace y = false) :
    collapseAux true l = collapseAux false l := by
  cases l with
  | nil => rfl
  | cons a t =>
    have ha : isPySpace a = false := h a (by simp)
    rw [collapseAux, collapseAux, if_neg (by simp [ha]), if_neg (by simp [ha])]

theorem collapseAux_eq_self (l : List Char)
    (hsp : ∀ c ∈ l, isPySpace c = true → c = ' ')
    (hch : List.Chain' NoWsPair l) : collapseAux false l = l := by
  induction l with
  | nil => rfl
  | cons a t ih =>
    have hch' := List.chain'_cons'.mp hch
    by_cases ha : isPySpace a
    · rw [collapseAux, if_pos ha]
      have haSp : a = ' ' := hsp a (List.mem_cons_self a t) (by simp [ha])
      have hhead : ∀ y ∈ t.head?, isPySpace y = false := by
        intro y hy
        have := hch'.1 y hy
        by_contra hcon
        exact this ⟨by simp [ha], by simpa using hcon⟩
      rw [collapseAux_true_eq_false t hhead,
        ih (fun c hc => hsp c (List.mem_cons_of_mem a hc)) hch'.2, haSp]
      simp
    · rw [collapseAux, if_neg ha,
        ih (fun c hc => hsp c (List.mem_cons_of_mem a hc)) hch'.2]

theorem mem_stripWs {c : Char} {l : List Char} (h : c ∈ stripWs l) : c ∈ l := by
  unfold stripWs at h
  rw [List.mem_reverse] at h
  have h1 := mem_of_mem_dropWhile _ h
  rw [List.mem_reverse] at h1
  exact mem_of_mem_dropWhile _ h1

theorem stripWs_head (l : List Char) :
    ∀ c ∈ (stripWs l).head?, isPySpace c = false := by
  intro c hc
  have hsplit : l.dropWhile isPySpace
      = stripWs l ++ ((l.dropWhile isPySpace).reverse.takeWhile isPySpace).reverse := by
    unfold stripWs
    rw [← List.reverse_append, List.takeWhile_append_dropWhile, List.reverse_reverse]
  cases hs : stripWs l with
  | nil => rw [hs] at hc; simp at hc
  | cons b bs =>
    rw [hs] at hc
    have hcb : c = b := by
      have := hc; simp at this; exact this.symm
    subst hcb
    have hhead : (l.dropWhile isPySpace).head? = some c := by rw [hsplit, hs]; rfl
    exact dropWhile_head_false isPySpace l c (by rw [hhead]; rfl)

theorem stripWs_last (l : List Char) :
    ∀ c ∈ (stripWs l).getLast?, isPySpace c = false := by
  intro c hc
  rw [← List.head?_reverse] at hc
  unfold stripWs at hc
  rw [List.reverse_reverse] at hc
  exact dropWhile_head_false isPySpace _ c hc

theorem stripWs_eq_self (l : List Char)
    (h1 : ∀ c ∈ l.head?, isPySpace c = false)
    (h2 : ∀ c ∈ l.getLast?, isPySpace c = false) : stripWs l = l := by
  unfold stripWs
  rw [dropWhile_eq_self _ _ h1]
  rw [dropWhile_eq_self _ _ (by simpa [List.head?_reverse] using h2)]
  exact List.reverse_reverse l

theorem chain'_dropWhile {R : Char → Char → Prop} (p : Char → Bool)
    {l : List Char} (h : List.Chain' R l) : List.Chain' R (l.dropWhile p) := by
  rw [← List.takeWhile_append_dropWhile p l] at h
  exact (List.chain'_append.mp h).2.1

theorem chain'_reverse_noWsPair {l : List Char}
    (h : List.Chain' NoWsPair l) : List.Chain' NoWsPair l.reverse := by
  rw [List.chain'_reverse]
  exact h.imp (fun a b hab => noWsPair_symm hab)

theorem chain'_stripWs {l : List Char} (h : List.Chain' NoWsPair l) :
    List.Chain' NoWsPair (stripWs l) := by
  unfold stripWs
  exact chain'_reverse_noWsPair (chain'_dropWhile _ (chain'_reverse_noWsPair
    (chain'_dropWhile _ h)))

theorem mem_dehyphenF {c : Char} :
    ∀ (fuel : Nat) (l : List Char), c ∈ dehyphenF fuel l → c ∈ l := by
  intro fuel
  induction fuel with
  | zero => intro l h; exact h
  | succ fuel ih =>
    intro l h
    cases l with
    | nil => exact h
    | cons a t =>
      by_cases ha : a = '-'
      · rw [dehyphenF, if_pos ha] at h
        by_cases hr : (t.takeWhile isPySpace).contains '\n'
        · rw [if_pos hr] at h
          have h' := ih _ h
          rcases List.mem_append.mp h' with h'' | h''
          · rw [List.mem_reverse] at h''
            have := mem_of_mem_takeWhile _ h''
            rw [List.mem_reverse] at this
            exact List.mem_cons_of_mem a (mem_of_mem_takeWhile _ this)
          · exact List.mem_cons_of_mem a (mem_of_mem_dropWhile _ h'')
        · rw [if_neg hr] at h
          rcases List.mem_cons.mp h with h'' | h''
          · exact h'' ▸ List.mem_cons_self c t
          · exact List.mem_cons_of_mem a (ih t h'')
      · rw [dehyphenF, if_neg ha] at h
        rcases List.mem_cons.mp h with h'' | h''
        · exact h'' ▸ List.mem_cons_self c t
        · exact List.mem_cons_of_mem a (ih t h'')

theorem dehyphenF_eq_self : ∀ (fuel : Nat) (l : List Char),
    '\n' ∉ l → dehyphenF fuel l = l := by
  intro fuel
  induction fuel with
  | zero => intro l _; rfl
  | succ fuel ih =>
    intro l hnl
    cases l with
    | nil => rfl
    | cons a t =>
      have hnt : '\n' ∉ t := fun h => hnl (List.mem_cons_of_mem a h)
      by_cases ha : a = '-'
      · have hr : (t.takeWhile isPySpace).contains '\n' = false := by
          by_contra hcon
          rw [Bool.not_eq_false] at hcon
          rcases List.contains_iff_exists_mem_beq.mp hcon with ⟨x, hx, hbeq⟩
          have hxeq : '\n' = x := by simpa using hbeq
          exact hnt (mem_of_mem_takeWhile _ (hxeq ▸ hx))
        simp only [dehyphenF, if_pos ha, hr, Bool.false_eq_true, if_false]
        rw [ih t hnt]
      · simp only [dehyphenF, if_neg ha]
        rw [ih t hnt]

theorem replaceNl_eq_self {l : List Char} (h : '\n' ∉ l) : replaceNl l = l := by
  unfold replaceNl
  have hcg : ∀ a ∈ l, (if a = '\n' then ' ' else a) = id a := by
    intro a ha
    have hne : a ≠ '\n' := fun hc => h (hc ▸ ha)
    simp [hne]
  rw [List.map_congr_left hcg, List.map_id]

theorem replaceCtrl_eq_self {l : List Char} (h : '\x02' ∉ l) :
    replaceCtrl l = l := by
  unfold replaceCtrl
  have hcg : ∀ a ∈ l, (if a = '\x02' then ' ' else a) = id a := by
    intro a ha
    have hne : a ≠ '\x02' := fun hc => h (hc ▸ ha)
    simp [hne]
  rw [List.map_congr_left hcg, List.map_id]

/-- Every whitespace character surviving normalization is a plain space. -/
theorem normChars_ws_eq_space {l : List Char} :
    ∀ c ∈ normChars l, isPySpace c = true → c = ' ' := by
  intro c hc hws
  unfold normChars at hc
  have h1 := mem_stripWs hc
  rcases mem_collapseAux false _ h1 with h | ⟨_, hw⟩
  · exact h
  · rw [hws] at hw; cases hw

/-- Normalization leaves no `'\n'`. -/
theorem normChars_no_nl {l : List Char} : '\n' ∉ normChars l := by
  intro h
  have := normChars_ws_eq_space '\n' h (by decide)
  cases this

/-- Normalization leaves no `'\x02'`. -/
theorem normChars_no_ctrl {l : List Char} : '\x02' ∉ normChars l := by
  intro h
  unfold normChars at h
  have h1 := mem_stripWs h
  rcases mem_collapseAux false _ h1 with h' | ⟨hm, _⟩
  · cases h'
  · unfold replaceNl at hm
    rcases List.mem_map.mp hm with ⟨a, ha, hfa⟩
    have ha2 : a = '\x02' := by
      by_cases hnl : a = '\n'
      · rw [if_pos hnl] at hfa; cases hfa
      · rwa [if_neg hnl] at hfa
    subst ha2
    have hm2 := mem_dehyphenF _ _ ha
    unfold replaceCtrl at hm2
    rcases List.mem_map.mp hm2 with ⟨b, _, hfb⟩
    by_cases hb : b = '\x02'
    · rw [if_pos hb] at hfb; cases hfb
    · rw [if_neg hb] at hfb; exact hb hfb

theorem normChars_chain' (l : List Char) :
    List.Chain' NoWsPair (normChars l) :=
  chain'_stripWs (chain'_collapseAux false _)

/-- Normalization is idempotent at the character-list level. -/
theorem normChars_idem (l : List Char) : normChars (normChars l) = normChars l := by
  set o := normChars l with ho
  have hctrl : replaceCtrl o = o := replaceCtrl_eq_self normChars_no_ctrl
  have hde : dehyphenF (replaceCtrl o).length (replaceCtrl o) = o := by
    rw [hctrl]; exact dehyphenF_eq_self _ o normChars_no_nl
  have hnl : replaceNl o = o := replaceNl_eq_self normChars_no_nl
  have hcoll : collapseWs o = o := by
    unfold collapseWs
    exact collapseAux_eq_self o (fun c hc => normChars_ws_eq_space c hc)
      (normChars_chain' l)
  have hstr : stripWs o = o := by
    apply stripWs_eq_self
    · intro c hc
      rw [ho] at hc
      unfold normChars at hc
      exact stripWs_head _ c hc
    · intro c hc
      rw [ho] at hc
      unfold normChars at hc
      exact stripWs_last _ c hc
  show normChars o = o
  unfold normChars
  rw [hctrl, dehyphenF_eq_self _ o normChars_no_nl, hnl, hcoll, hstr]

/-! ### Correctness of the substring search -/

theorem begWith_iff : ∀ (n h : List Char), begWith n h = true ↔ h.take n.length = n := by
  intro n
  induction n with
  | nil => intro h; simp [begWith]
  | cons c n ih =>
    intro h
    cases h with
    | nil => simp [begWith]
    | cons d t =>
      show (c == d && begWith n t) = true ↔ _
      rw [List.length_cons, List.take_succ_cons, Bool.and_eq_true, beq_iff_eq]
      constructor
      · rintro ⟨h1, h2⟩
        rw [(ih t).mp h2, h1]
      · intro h1
        have h2 := List.cons.inj h1
        exact ⟨h2.1.symm, (ih t).mpr h2.2⟩

theorem strFind_eq_some (n : List Char) :
    ∀ (hay : List Char) (i : Nat), strFind n hay = some i →
      (hay.drop i).take n.length = n ∧ ∀ j < i, (hay.drop j).take n.length ≠ n := by
  intro hay
  induction hay with
  | nil =>
    intro i hi
    simp only [strFind] at hi
    by_cases hb : begWith n [] = true
    · rw [if_pos hb] at hi
      injection hi with hi
      subst hi
      exact ⟨(begWith_iff n []).mp hb, fun j hj => absurd hj (Nat.not_lt_zero j)⟩
    · rw [if_neg hb] at hi
      cases hi
  | cons d t ih =>
    intro i hi
    simp only [strFind] at hi
    by_cases hb : begWith n (d :: t) = true
    · rw [if_pos hb] at hi
      injection hi with hi
      subst hi
      exact ⟨(begWith_iff n (d :: t)).mp hb, fun j hj => absurd hj (Nat.not_lt_zero j)⟩
    · rw [if_neg hb] at hi
      rcases Option.map_eq_some'.mp hi with ⟨i', hi', hii⟩
      subst hii
      obtain ⟨h1, h2⟩ := ih i' hi'
      refine ⟨by rwa [List.drop_succ_cons], ?_⟩
      intro j hj
      cases j with
      | zero =>
        intro hcon
        exact hb ((begWith_iff n (d :: t)).mpr hcon)
      | succ j' =>
        rw [List.drop_succ_cons]
        exact h2 j' (Nat.lt_of_succ_lt_succ hj)

theorem strFind_eq_none (n : List Char) :
    ∀ hay : List Char, strFind n hay = none →
      ∀ j, (hay.drop j).take n.length ≠ n := by
  intro hay
  induction hay with
  | nil =>
    intro hn j
    simp only [strFind] at hn
    by_cases hb : begWith n [] = true
    · rw [if_pos hb] at hn; cases hn
    · rw [List.drop_nil]
      intro hcon
      exact hb ((begWith_iff n []).mpr hcon)
  | cons d t ih =>
    intro hn j
    simp only [strFind] at hn
    by_cases hb : begWith n (d :: t) = true
    · rw [if_pos hb] at hn; cases hn
    · rw [if_neg hb] at hn
      have ht : strFind n t = none := by
        cases hf : strFind n t with
        | none => rfl
        | some v => rw [hf] at hn; cases hn
      cases j with
      | zero =>
        intro hcon
        exact hb ((begWith_iff n (d :: t)).mpr hcon)
      | succ j' =>
        rw [List.drop_succ_cons]
        exact ih ht j'

theorem occursIn_iff_isSome (n hay : List Char) :
    OccursIn n hay ↔ (strFind n hay).isSome := by
  constructor
  · rintro ⟨pre, suf, rfl⟩
    cases hs : strFind n (pre ++ n ++ suf) with
    | some i => rfl
    | none =>
      exfalso
      apply strFind_eq_none n _ hs pre.length
      rw [List.append_assoc, List.drop_left, List.take_left]
  · intro h
    obtain ⟨i, hi⟩ := Option.isSome_iff_exists.mp h
    obtain ⟨h1, -⟩ := strFind_eq_some n hay i hi
    refine ⟨hay.take i, (hay.drop i).drop n.length, ?_⟩
    have h2 : hay.drop i = n ++ (hay.drop i).drop n.length := by
      conv_lhs => rw [← List.take_append_drop n.length (hay.drop i)]
      rw [h1]
    calc hay = hay.take i ++ hay.drop i := (List.take_append_drop i hay).symm
    _ = hay.take i ++ (n ++ (hay.drop i).drop n.length) := by rw [← h2]
    _ = hay.take i ++ n ++ (hay.drop i).drop n.length := by rw [List.append_assoc]

theorem occursIn_ne_nil {n hay : List Char} (h : OccursIn n hay) (hn : n ≠ []) :
    hay ≠ [] := by
  rcases h with ⟨pre, suf, rfl⟩
  intro hcon
  rcases List.append_eq_nil.mp hcon with ⟨h1, -⟩
  rcases List.append_eq_nil.mp h1 with ⟨-, h2⟩
  exact hn h2

/-! ### `_find_offsets` -/

theorem find_offsets_none_of_not_occurs {text q : List Char}
    (h : ¬ OccursIn q text) : _find_offsets text q = none := by
  unfold _find_offsets
  by_cases hg : text = [] ∨ q = []
  · rw [if_pos hg]
  · rw [if_neg hg]
    cases hf : strFind q text with
    | none => rfl
    | some i =>
      exact absurd ((occursIn_iff_isSome q text).mpr (by rw [hf]; rfl)) h

theorem find_offsets_some_of_occurs {text q : List Char} (hq : q ≠ [])
    (h : OccursIn q text) :
    ∃ i, strFind q text = some i ∧ _find_offsets text q = some (i, i + q.length) := by
  have ht : text ≠ [] := occursIn_ne_nil h hq
  obtain ⟨i, hi⟩ := Option.isSome_iff_exists.mp ((occursIn_iff_isSome q text).mp h)
  refine ⟨i, hi, ?_⟩
  unfold _find_offsets
  rw [if_neg (by simp [ht, hq]), hi]

/-! ### C6: normalization idempotence -/

/-- Claim C6: text normalization is idempotent: for every string `s`,
`normalize(normalize(s)) = normalize(s)`. -/
theorem C6_normalize_idempotent (s : String) :
    _normalize_text (_normalize_text s) = _normalize_text s := by
  show (⟨normChars (normChars s.data)⟩ : String) = ⟨normChars s.data⟩
  rw [normChars_idem]

/-! ### C8: empty or missing quote -/

theorem scanPages_nil_quote : ∀ (pages : List String) (i : Nat),
    scanPages [] pages i = none := by
  intro pages
  induction pages with
  | nil => intro i; rfl
  | cons p rest ih =>
    intro i
    have hf : _find_offsets p.data [] = none := by
      unfold _find_offsets
      rw [if_pos (Or.inr rfl)]
    simp only [scanPages, hf]
    exact ih (i + 1)

/-- Claim C8: resolving a record whose `quote` field is missing or empty
returns `unmatched` with null offsets and page — the resolver guards against
the empty quote before searching, although `""` is a substring of every
text. -/
theorem C8_empty_quote_unmatched (linear : String) (pages : List String) :
    resolve_quote none linear pages = ⟨"unmatched", "text", none, none, none⟩ ∧
    resolve_quote (some "") linear pages = ⟨"unmatched", "text", none, none, none⟩ := by
  have hq1 : (pyOrStrD none "") = "" := rfl
  have hq2 : (pyOrStrD (some "") "") = "" := by
    show (if ("" : String) = "" then "" else "") = ""
    rw [if_pos rfl]
  have hf : _find_offsets linear.data ("" : String).data = none := by
    unfold _find_offsets
    rw [if_pos (Or.inr rfl)]
  constructor
  · unfold resolve_quote
    rw [hq1]
    simp only [hf, scanPages_nil_quote]
  · unfold resolve_quote
    rw [hq2]
    simp only [hf, scanPages_nil_quote]

/-! ### C2: two-pass offset resolution -/

theorem scanPages_none_of_not_occurs (q : List Char) :
    ∀ (pages : List String) (i : Nat),
      (∀ p ∈ pages, ¬ OccursIn q p.data) → scanPages q pages i = none := by
  intro pages
  induction pages with
  | nil => intro i _; rfl
  | cons p rest ih =>
    intro i h
    have hf : _find_offsets p.data q = none :=
      find_offsets_none_of_not_occurs (h p (List.mem_cons_self p rest))
    simp only [scanPages, hf]
    exact ih (i + 1) (fun p' hp' => h p' (List.mem_cons_of_mem p hp'))

theorem scanPages_found (q : List Char) (hq : q ≠ []) :
    ∀ (pages : List String) (i k : Nat) (p : String),
      pages[k]? = some p → OccursIn q p.data →
      (∀ j p', j < k → pages[j]? = some p' → ¬ OccursIn q p'.data) →
      ∃ a, strFind q p.data = some a ∧
        scanPages q pages i = some (a, a + q.length, i + k) := by
  intro pages
  induction pages with
  | nil => intro i k p hp; simp at hp
  | cons p0 rest ih =>
    intro i k p hp hocc hmin
    cases k with
    | zero =>
      have hp0 : p = p0 := by simpa using hp.symm
      subst hp0
      obtain ⟨a, ha, hfo⟩ := find_offsets_some_of_occurs hq hocc
      refine ⟨a, ha, ?_⟩
      simp only [scanPages, hfo, Nat.add_zero]
    | succ k' =>
      have h0 : ¬ OccursIn q p0.data :=
        hmin 0 p0 (Nat.succ_pos k') (by simp)
      have hf : _find_offsets p0.data q = none :=
        find_offsets_none_of_not_occurs h0
      have hrest : rest[k']? = some p := by simpa using hp
      have hmin' : ∀ j p', j < k' → rest[j]? = some p' → ¬ OccursIn q p'.data := by
        intro j p' hj hp'
        exact hmin (j + 1) p' (Nat.succ_lt_succ hj) (by simpa using hp')
      obtain ⟨a, ha, hsc⟩ := ih (i + 1) k' p hrest hocc hmin'
      refine ⟨a, ha, ?_⟩
      simp only [scanPages, hf]
      have hik : i + 1 + k' = i + (k' + 1) := by omega
      rw [hsc, hik]

theorem string_ne_data {q : String} (hq : q ≠ "") : q.data ≠ [] := by
  intro h
  apply hq
  cases q with
  | mk d => simp at h; rw [h]

/-- Claim C2, amended (the quote must be non-empty; the empty quote is
guarded to `Unmatched`, see the counterexample and C8): for every non-empty
quote: if it occurs verbatim in the linear text, resolution returns
`matched`/`text` with offsets `[i, i + len)` at the leftmost occurrence `i`;
otherwise, if it occurs verbatim in some page's alternate text, resolution
returns `matched`/`vision` with the 1-based index of the first such page and
that page's leftmost local offsets; otherwise it returns `unmatched` with
null offsets and page (no exception — a total function). -/
theorem C2_resolve_offsets (q linear : String) (pages : List String)
    (hq : q ≠ "") :
    (OccursIn q.data linear.data →
      ∃ i, strFind q.data linear.data = some i ∧
        (linear.data.drop i).take q.data.length = q.data ∧
        (∀ j < i, (linear.data.drop j).take q.data.length ≠ q.data) ∧
        resolve_quote (some q) linear pages =
          ⟨"matched", "text", some i, some (i + q.data.length), none⟩) ∧
    (¬ OccursIn q.data linear.data →
      ∀ k p, pages[k]? = some p → OccursIn q.data p.data →
        (∀ j p', j < k → pages[j]? = some p' → ¬ OccursIn q.data p'.data) →
        ∃ a, strFind q.data p.data = some a ∧
          resolve_quote (some q) linear pages =
            ⟨"matched", "vision", some a, some (a + q.data.length), some (k + 1)⟩) ∧
    (¬ OccursIn q.data linear.data → (∀ p ∈ pages, ¬ OccursIn q.data p.data) →
      resolve_quote (some q) linear pages =
        ⟨"unmatched", "text", none, none, none⟩) := by
  have hqd : q.data ≠ [] := string_ne_data hq
  have hQ : pyOrStrD (some q) "" = q := by
    show (if q = "" then "" else q) = q
    rw [if_neg hq]
  refine ⟨?_, ?_, ?_⟩
  · intro hocc
    obtain ⟨i, hi, hfo⟩ := find_offsets_some_of_occurs hqd hocc
    obtain ⟨h1, h2⟩ := strFind_eq_some q.data linear.data i hi
    refine ⟨i, hi, h1, h2, ?_⟩
    unfold resolve_quote
    rw [hQ]
    simp only [hfo]
  · intro hnocc k p hp hocc hmin
    have hf : _find_offsets linear.data q.data = none :=
      find_offsets_none_of_not_occurs hnocc
    obtain ⟨a, ha, hsc⟩ := scanPages_found q.data hqd pages 1 k p hp hocc hmin
    refine ⟨a, ha, ?_⟩
    unfold resolve_quote
    rw [hQ]
    simp only [hf, hsc]
    congr 2
    omega
  · intro hnocc hpages
    have hf : _find_offsets linear.data q.data = none :=
      find_offsets_none_of_not_occurs hnocc
    have hsc := scanPages_none_of_not_occurs q.data pages 1 hpages
    unfold resolve_quote
    rw [hQ]
    simp only [hf, hsc]

/-- Witness for C2: on `quote = "bc"`, `linear = "abc"` the resolver returns
the leftmost text offsets `[1, 3)`; on a quote only present in page 2 it
returns the vision source with 1-based page 2. -/
theorem C2_resolve_offsets_witness :
    resolve_quote (some "bc") "abc" [] =
      ⟨"matched", "text", some 1, some 3, none⟩ ∧
    resolve_quote (some "xy") "abc" ["q", "wxyz"] =
      ⟨"matched", "vision", some 1, some 3, some 2⟩ ∧
    resolve_quote (some "zz") "abc" ["q"] =
      ⟨"unmatched", "text", none, none, none⟩ := by
  refine ⟨?_, ?_, ?_⟩
  · obtain ⟨h1, -, -⟩ :=
      C2_resolve_offsets "bc" "abc" [] (by decide)
    obtain ⟨i, hfind, -, -, hres⟩ := h1 ⟨['a'], [], rfl⟩
    have hv : strFind ("bc" : String).data ("abc" : String).data = some 1 := by decide
    rw [hv] at hfind
    injection hfind with hfind
    subst hfind
    exact hres
  · obtain ⟨-, h2, -⟩ :=
      C2_resolve_offsets "xy" "abc" ["q", "wxyz"] (by decide)
    have hnocc : ¬ OccursIn ("xy" : String).data ("abc" : String).data := by
      rw [occursIn_iff_isSome]
      decide
    obtain ⟨a, hfind, hres⟩ := h2 hnocc 1 "wxyz" (by decide) ⟨['w'], ['z'], rfl⟩
      (by
        intro j p' hj hp'
        interval_cases j
        have hp'q : p' = "q" := by simpa using hp'.symm
        subst hp'q
        rw [occursIn_iff_isSome]
        decide)
    have hv : strFind ("xy" : String).data ("wxyz" : String).data = some 1 := by decide
    rw [hv] at hfind
    injection hfind with hfind
    subst hfind
    exact hres
  · obtain ⟨-, -, h3⟩ :=
      C2_resolve_offsets "zz" "abc" ["q"] (by decide)
    refine h3 ?_ ?_
    · rw [occursIn_iff_isSome]; decide
    · intro p hp
      have hpq : p = "q" := by simpa using hp
      subst hpq
      rw [occursIn_iff_isSome]
      decide

/-- Counterexample to claim C2: the claim as stated quantifies over *every*
quote; the empty quote is a verbatim substring of `"a"` yet resolution
returns `Unmatched`, not `Matched`/`Text`. -/
theorem C2_counterexample :
    OccursIn ("" : String).data ("a" : String).data ∧
    resolve_quote (some "") "a" [] = ⟨"unmatched", "text", none, none, none⟩ :=
  ⟨⟨[], ['a'], rfl⟩, by decide⟩

/-! ### C4: the candidate trial loop -/

theorem candidateLoop_fst (f : List Char → Nat) (thr : Nat) :
    ∀ cands : List (List Char),
      (candidateLoop f thr cands).1 = ((triedCands f thr cands).map f).sum := by
  intro cands
  induction cands with
  | nil => rfl
  | cons s rest ih =>
    by_cases hs : 0 < f s
    · by_cases hl : thr ≤ s.length
      · simp [candidateLoop, triedCands, hs, hl]
      · simp [candidateLoop, triedCands, hs, hl, ih]
    · have hz : f s = 0 := by omega
      simp [candidateLoop, triedCands, hs, ih, hz]

theorem candidateLoop_found_iff (f : List Char → Nat) (thr : Nat) :
    ∀ cands : List (List Char),
      ((candidateLoop f thr cands).2 = true ↔
        ∃ s ∈ triedCands f thr cands, 0 < f s) := by
  intro cands
  induction cands with
  | nil => simp [candidateLoop, triedCands]
  | cons s rest ih =>
    by_cases hs : 0 < f s
    · by_cases hl : thr ≤ s.length
      · simp [candidateLoop, triedCands, hs, hl]
      · simp [candidateLoop, triedCands, hs, hl]
    · have hz : f s = 0 := by omega
      simp [candidateLoop, triedCands, hs, ih, hz]

theorem candidateLoop_found_iff_pos (f : List Char → Nat) (thr : Nat) :
    ∀ cands : List (List Char),
      ((candidateLoop f thr cands).2 = true ↔ 0 < (candidateLoop f thr cands).1) := by
  intro cands
  induction cands with
  | nil => simp [candidateLoop]
  | cons s rest ih =>
    by_cases hs : 0 < f s
    · by_cases hl : thr ≤ s.length
      · simp [candidateLoop, hs, hl]
      · simp [candidateLoop, hs, hl]
    · have hz : f s = 0 := by omega
      simp [candidateLoop, hs, ih]

/-- Claim C4: for every citation and page, candidates are tried in generator
order; the loop accumulates the hits of every tried candidate, and the tried
candidates are exactly the generator-order prefix through the first
candidate that produces a hit and has length at least
`min(200, normalized citation length)` (`triedCands`): a shorter candidate
with hits does not stop the trials.  The exact-match flag is set iff some
tried candidate produced a hit. -/
theorem C4_candidate_loop (f : List Char → Nat) (cited : List Char) :
    (exactPhase f cited).1 =
      ((triedCands f (min 200 (normChars cited).length)
        (_candidate_snippets cited)).map f).sum ∧
    ((exactPhase f cited).2 = true ↔
      ∃ s ∈ triedCands f (min 200 (normChars cited).length)
        (_candidate_snippets cited), 0 < f s) :=
  ⟨candidateLoop_fst f _ _, candidateLoop_found_iff f _ _⟩

/-- Witness for C4: a candidate with hits but below the length threshold
does not stop the trials, and hits accumulate across candidates. -/
theorem C4_candidate_loop_witness :
    (exactPhase (fun s => if s.length ≤ 23 then 2 else 0)
      ("\x22ab cd ef gh ij kl mn op\x22" : String).data).1 = 2 := by
  have h := (C4_candidate_loop (fun s => if s.length ≤ 23 then 2 else 0)
    ("\x22ab cd ef gh ij kl mn op\x22" : String).data).1
  rw [h]
  decide

/-! ### C5: the fuzzy-fallback guard -/

/-- Claim C5: for every citation and page, the Fuzzy Block Matcher is invoked
iff the exact candidate search produced zero hits on that page and the
normalized citation text is strictly longer than 20 characters; in
particular, with normalized length at most 20 the page's result is the exact
hits with no fuzzy invocation. -/
theorem C5_fuzzy_guard (f : List Char → Nat) (blocks : List FBlock)
    (cited : List Char) :
    ((processPage f blocks cited).2 = true ↔
      ((exactPhase f cited).1 = 0 ∧ 20 < (normChars cited).length)) ∧
    ((normChars cited).length ≤ 20 →
      processPage f blocks cited = ((exactPhase f cited).1, false)) := by
  have hiff : ((exactPhase f cited).2 = true ↔ 0 < (exactPhase f cited).1) :=
    candidateLoop_found_iff_pos f _ _
  constructor
  · by_cases hc : (exactPhase f cited).2 = false ∧ 20 < (normChars cited).length
    · unfold processPage
      rw [if_pos hc]
      simp only [true_iff]
      refine ⟨?_, hc.2⟩
      have : ¬ 0 < (exactPhase f cited).1 := fun hpos => by
        have := hiff.mpr hpos
        rw [hc.1] at this
        cases this
      omega
    · unfold processPage
      rw [if_neg hc]
      simp only [Bool.false_eq_true, false_iff]
      intro ⟨h0, h20⟩
      apply hc
      refine ⟨?_, h20⟩
      cases hb : (exactPhase f cited).2 with
      | false => rfl
      | true =>
        have := hiff.mp hb
        omega
  · intro h20
    unfold processPage
    rw [if_neg (by intro h; omega)]

/-- Witness for C5: a 29-character citation with no exact hits triggers the
fuzzy fallback; a 2-character citation with hits everywhere does not. -/
theorem C5_fuzzy_guard_witness :
    (processPage (fun _ => 0) [] ("ab cd ef gh ij kl mn op qr st" : String).data).2
      = true ∧
    processPage (fun _ => 1) [] ("ab" : String).data =
      ((exactPhase (fun _ => 1) ("ab" : String).data).1, false) := by
  constructor
  · exact ((C5_fuzzy_guard (fun _ => 0) [] _).1).mpr (by decide)
  · exact (C5_fuzzy_guard (fun _ => 1) [] _).2 (by decide)

/-! ### C1: the fuzzy block threshold -/

theorem fuzzyBlockLoop_filter (tws : List (List Char)) :
    ∀ bs : List FBlock,
      fuzzyBlockLoop tws bs =
        (bs.filter (fun b => b.hasLines && !(blockSpans b).isEmpty &&
          decide (3 ≤ matchCount tws (blockNorm b) ∨
            6 * tws.length ≤ 10 * matchCount tws (blockNorm b)))).length := by
  intro bs
  induction bs with
  | nil => rfl
  | cons b rest ih =>
    by_cases h1 : b.hasLines = false
    · simp [fuzzyBlockLoop, h1, ih, List.filter_cons]
    · have h1' : b.hasLines = true := by
        cases hb : b.hasLines
        · exact absurd hb h1
        · rfl
      by_cases h2 : blockSpans b = []
      · simp [fuzzyBlockLoop, h1, h1', h2, ih, List.filter_cons]
      · by_cases h3 : min 30 (6 * tws.length) ≤ 10 * matchCount tws (blockNorm b)
        · have h3' : 3 ≤ matchCount tws (blockNorm b) ∨
              6 * tws.length ≤ 10 * matchCount tws (blockNorm b) := by
            rcases min_le_iff.mp h3 with h | h
            · left; omega
            · right; exact h
          simp [fuzzyBlockLoop, h1, h1', h2, h3, h3', ih, List.filter_cons,
            List.isEmpty_iff]
          omega
        · have h3' : ¬(3 ≤ matchCount tws (blockNorm b) ∨
              6 * tws.length ≤ 10 * matchCount tws (blockNorm b)) := by
            intro h
            apply h3
            apply min_le_iff.mpr
            rcases h with h | h
            · left; omega
            · right; exact h
          simp [fuzzyBlockLoop, h1, h1', h2, h3, h3', ih, List.filter_cons,
            List.isEmpty_iff]

/-- Claim C1, amended (the source uses `min`, not `max`): under the matcher's
guards (normalized target length ≥ 10, at least 2 target words), the matcher
draws exactly one rectangle per block having a `lines` key, at least one
span, and a matched-target-word count of at least
`min(3, 0.6 * target_word_count)` — equivalently, at least 3 matched words
**or** at least 60% of the target words (the claim's
`max(3, ceil(0.6 * n))` threshold is refuted by `C1_counterexample`). -/
theorem C1_block_match_threshold (blocks : List FBlock) (text : List Char)
    (h10 : 10 ≤ (lowerL (normChars text)).length)
    (h2 : 2 ≤ (fuzzyTargetWords text).length) :
    _fuzzy_rectangle_highlight blocks text =
      (blocks.filter (fun b =>
        b.hasLines && !(blockSpans b).isEmpty &&
        decide (3 ≤ matchCount (fuzzyTargetWords text) (blockNorm b) ∨
          6 * (fuzzyTargetWords text).length ≤
            10 * matchCount (fuzzyTargetWords text) (blockNorm b)))).length := by
  show (if (lowerL (normChars text)).length < 10 then 0
    else if (fuzzyTargetWords text).length < 2 then 0
    else fuzzyBlockLoop (fuzzyTargetWords text) blocks) = _
  rw [if_neg (by omega), if_neg (by omega)]
  exact fuzzyBlockLoop_filter _ blocks

/-- Witness for C1 (amended): a block containing 4 of the 5 target words is
matched (one rectangle); a block without a `lines` key is skipped. -/
theorem C1_block_match_threshold_witness :
    _fuzzy_rectangle_highlight
      [⟨true, [⟨[⟨(0, 0, 1, 1), "alpha bravo carlo delta"⟩]⟩]⟩, ⟨false, []⟩]
      ("alpha bravo carlo delta echos" : String).data = 1 := by
  rw [C1_block_match_threshold _ _ (by decide) (by decide)]
  decide

/-- Counterexample to claim C1: with 10 target words, a block (with lines and a
span) containing exactly 3 of them: the code draws one fuzzy rectangle
(`min(3, 0.6·10) = 3` is reached), although the claim's threshold
`max(3, ceil(0.6·10)) = 6` is not. -/
theorem C1_counterexample :
    _fuzzy_rectangle_highlight
        [⟨true, [⟨[⟨(0, 0, 1, 1), "alpha bravo carlo"⟩]⟩]⟩]
        ("alpha bravo carlo delta echos fangs golfs hotel india juliet" :
          String).data = 1 ∧
    (fuzzyTargetWords
      ("alpha bravo carlo delta echos fangs golfs hotel india juliet" :
        String).data).length = 10 ∧
    matchCount
      (fuzzyTargetWords
        ("alpha bravo carlo delta echos fangs golfs hotel india juliet" :
          String).data)
      (blockNorm ⟨true, [⟨[⟨(0, 0, 1, 1), "alpha bravo carlo"⟩]⟩]⟩) = 3 ∧
    ¬ claimBlockThreshold 10 ≤ 3 :=
  ⟨by decide, by decide, by decide, by decide⟩

/-! ### C3 / C9: citation parsing and error handling -/

theorem pyTruthyI_some {a : Option Int} (h : pyTruthyI a = true) :
    ∃ n, a = some n := by
  cases a with
  | none => cases h
  | some n => exact ⟨n, rfl⟩

theorem pyOrI_chain_some (a b c : Option Int)
    (h : pyTruthyI a = true ∨ pyTruthyI b = true ∨ c ≠ none) :
    ∃ v, pyOrI (pyOrI a b) c = some v := by
  unfold pyOrI
  by_cases ha : pyTruthyI a = true
  · rw [if_pos ha, if_pos ha]
    exact pyTruthyI_some ha
  · rw [if_neg ha]
    by_cases hb : pyTruthyI b = true
    · rw [if_pos hb]
      exact pyTruthyI_some hb
    · rw [if_neg hb]
      rcases h with h | h | h
      · exact absurd h ha
      · exact absurd h hb
      · cases hcv : c with
        | none => exact absurd hcv h
        | some v => exact ⟨v, rfl⟩

theorem pyOrI_chain_last (a b : Option Int) (ha : pyTruthyI a = false)
    (hb : pyTruthyI b = false) (c : Option Int) :
    pyOrI (pyOrI a b) c = c := by
  unfold pyOrI
  have h1 : (if pyTruthyI a = true then a else b) = b := if_neg (by simp [ha])
  rw [h1, if_neg (by simp [hb])]

/-- Claim C3: a citation record lacking every page field (including the nested
`page_location` fallback) fails with the `MalformedCitation` error; citations
input that is neither a readable file nor valid inline JSON fails with the
`FormatError`, a distinct error; and a record with a resolvable page field
parses without raising. -/
theorem C3_error_handling :
    (∀ o : GenericCitation,
      o.start_page_number = none → o.page_number = none → o.page = none →
      (∀ l, o.page_location = some l →
        l.start_page_number = none ∧ l.page_number = none) →
      from_generic o = .error .malformedCitation) ∧
    (∀ (readFile : String → Option String) (parseJson : String → Option JsonVal)
        (inp : String), readFile inp = none → parseJson inp = none →
      load_citations_from_json readFile parseJson inp = .error .formatErr) ∧
    (HighlightErr.formatErr ≠ HighlightErr.malformedCitation) ∧
    (∀ o : GenericCitation,
      pyTruthyI o.start_page_number = true ∨ pyTruthyI o.page_number = true ∨
        o.page ≠ none →
      ∃ c, from_generic o = .ok c) := by
  refine ⟨?_, ?_, by decide, ?_⟩
  · intro o h1 h2 h3 h4
    cases hpl : o.page_location with
    | none => simp [from_generic, h1, h2, h3, hpl, pyOrI, pyTruthyI]
    | some l =>
      obtain ⟨hl1, hl2⟩ := h4 l hpl
      simp [from_generic, h1, h2, h3, hpl, hl1, hl2, pyOrI, pyTruthyI]
  · intro readFile parseJson inp hr hp
    simp [load_citations_from_json, hr, hp]
  · intro o h
    obtain ⟨v, hv⟩ := pyOrI_chain_some _ _ _ h
    refine ⟨⟨pyOrStrD (pyOrS o.cited_text o.text) "", v,
      some ((o.end_page_number).getD v),
      pyOrS (pyOrS o.entity_type o.etype) o.category,
      pyOrS o.color o.highlight_color⟩, ?_⟩
    simp [from_generic, hv]

/-- Witness for C3: an all-absent record is rejected as malformed; an
unreadable, unparsable input is rejected with the distinct format error; a
record with `start_page_number = 4` parses. -/
theorem C3_error_handling_witness :
    from_generic ⟨none, none, none, none, none, none, none, none, none, none,
        none, none⟩ = .error .malformedCitation ∧
    load_citations_from_json (fun _ => none) (fun _ => none) "nope"
      = .error .formatErr ∧
    HighlightErr.formatErr ≠ HighlightErr.malformedCitation ∧
    ∃ c, from_generic ⟨some "x", none, some 4, none, none, none, none, none,
        none, none, none, none⟩ = .ok c := by
  obtain ⟨ha, hb, hc, hd⟩ := C3_error_handling
  exact ⟨ha _ rfl rfl rfl (fun l h => by cases h), hb _ _ _ rfl rfl, hc,
    hd _ (Or.inl (by decide))⟩

/-- Counterexample to claim C9: a record whose only page field is `page = 0`
parses successfully to a citation with start page 0 — Python's `or` chain
returns its final operand even when falsy, and `0 is not None` — instead of
raising the missing-page error as the claim states. -/
theorem C9_counterexample :
    from_generic ⟨some "x", none, none, none, some 0, none, none, none, none,
        none, none, none⟩ = .ok ⟨"x", 0, some 0, none, none⟩ := rfl

/-- Claim C9, amended: the alias chain skips a 0 held in a non-final alias
(`start_page_number`, `page_number`): with every other page field absent such
a record raises the missing-page error; but a 0 held in the final alias
`page` is returned by the chain and accepted at parse time with start page 0
(clamped only later). -/
theorem C9_zero_page_alias :
    (∀ o : GenericCitation, o.start_page_number = some 0 → o.page_number = none →
      o.page = none → o.page_location = none →
      from_generic o = .error .malformedCitation) ∧
    (∀ o : GenericCitation, o.start_page_number = none → o.page_number = some 0 →
      o.page = none → o.page_location = none →
      from_generic o = .error .malformedCitation) ∧
    (∀ o : GenericCitation, pyTruthyI o.start_page_number = false →
      pyTruthyI o.page_number = false → o.page = some 0 →
      ∃ c, from_generic o = .ok c ∧ c.start_page_number = 0) := by
  refine ⟨?_, ?_, ?_⟩
  · intro o h1 h2 h3 h4
    simp [from_generic, h1, h2, h3, h4, pyOrI, pyTruthyI]
  · intro o h1 h2 h3 h4
    simp [from_generic, h1, h2, h3, h4, pyOrI, pyTruthyI]
  · intro o ha hb hc
    have hchain : pyOrI (pyOrI o.start_page_number o.page_number) o.page
        = some 0 := by
      rw [pyOrI_chain_last _ _ ha hb, hc]
    exact ⟨⟨pyOrStrD (pyOrS o.cited_text o.text) "", 0,
      some ((o.end_page_number).getD 0),
      pyOrS (pyOrS o.entity_type o.etype) o.category,
      pyOrS o.color o.highlight_color⟩, by simp [from_generic, hchain], rfl⟩

/-- Witness for C9 (amended): `start_page_number = 0` alone raises, as does
`page_number = 0` alone, while `page = 0` alone parses to start page 0. -/
theorem C9_zero_page_alias_witness :
    from_generic ⟨none, none, some 0, none, none, none, none, none, none, none,
        none, none⟩ = .error .malformedCitation ∧
    from_generic ⟨none, none, none, some 0, none, none, none, none, none, none,
        none, none⟩ = .error .malformedCitation ∧
    ∃ c, from_generic ⟨none, none, none, none, some 0, none, none, none, none,
        none, none, none⟩ = .ok c ∧ c.start_page_number = 0 := by
  obtain ⟨h1, h2, h3⟩ := C9_zero_page_alias
  exact ⟨h1 _ rfl rfl rfl rfl, h2 _ rfl rfl rfl rfl, h3 _ (by decide) (by decide) rfl⟩

/-! ### C7 / C10: color resolution -/

theorem COLOR_NAMES_empty : COLOR_NAMES "" = none := by decide

theorem ENTITY_COLORS_empty : ENTITY_COLORS "" = none := by decide

theorem getColor_of_color {cit : PageLocationCitation} {c : String} {rgb : Rgb}
    (hc : cit.color = some c) (hl : COLOR_NAMES (lowerS c) = some rgb) :
    _get_color_for_citation cit = rgb := by
  have hcne : c ≠ "" := by
    intro h
    subst h
    rw [show lowerS "" = "" from rfl, COLOR_NAMES_empty] at hl
    cases hl
  simp [_get_color_for_citation, hc, hl, pyTruthyS, hcne]

theorem getColor_first_false {cit : PageLocationCitation}
    (hcol : ∀ c, cit.color = some c → COLOR_NAMES (lowerS c) = none) :
    (pyTruthyS cit.color
      && (COLOR_NAMES (lowerS (cit.color.getD ""))).isSome) = false := by
  cases hcc : cit.color with
  | none => rfl
  | some c => simp [pyTruthyS, hcol c hcc]

theorem getColor_of_entity {cit : PageLocationCitation} {e : String} {rgb : Rgb}
    (hcol : ∀ c, cit.color = some c → COLOR_NAMES (lowerS c) = none)
    (he : cit.entity_type = some e) (hl : ENTITY_COLORS (lowerS e) = some rgb) :
    _get_color_for_citation cit = rgb := by
  have hene : e ≠ "" := by
    intro h
    subst h
    rw [show lowerS "" = "" from rfl, ENTITY_COLORS_empty] at hl
    cases hl
  simp only [_get_color_for_citation, getColor_first_false hcol,
    Bool.false_eq_true, if_false]
  simp [he, hl, pyTruthyS, hene]

theorem getColor_default {cit : PageLocationCitation}
    (hcol : ∀ c, cit.color = some c → COLOR_NAMES (lowerS c) = none)
    (hent : ∀ e, cit.entity_type = some e → ENTITY_COLORS (lowerS e) = none) :
    _get_color_for_citation cit = (1, 1, 0) := by
  have hsecond : (pyTruthyS cit.entity_type
      && (ENTITY_COLORS (lowerS (cit.entity_type.getD ""))).isSome) = false := by
    cases hee : cit.entity_type with
    | none => rfl
    | some e => simp [pyTruthyS, hent e hee]
  simp only [_get_color_for_citation, getColor_first_false hcol, hsecond,
    Bool.false_eq_true, if_false]
  rfl

/-- Claim C7: the resolved highlight color is: the RGB of the `color` field
when set and recognized; otherwise the `entity_type`'s configured RGB when
set and recognized; otherwise the default (yellow).  In particular a
recognized explicit color overrides the entity type. -/
theorem C7_color_resolution (cit : PageLocationCitation) :
    (∀ c rgb, cit.color = some c → COLOR_NAMES (lowerS c) = some rgb →
      _get_color_for_citation cit = rgb) ∧
    ((∀ c, cit.color = some c → COLOR_NAMES (lowerS c) = none) →
      ∀ e rgb, cit.entity_type = some e → ENTITY_COLORS (lowerS e) = some rgb →
        _get_color_for_citation cit = rgb) ∧
    ((∀ c, cit.color = some c → COLOR_NAMES (lowerS c) = none) →
      (∀ e, cit.entity_type = some e → ENTITY_COLORS (lowerS e) = none) →
      _get_color_for_citation cit = (1, 1, 0)) :=
  ⟨fun _ _ hc hl => getColor_of_color hc hl,
   fun hcol _ _ he hl => getColor_of_entity hcol he hl,
   fun hcol hent => getColor_default hcol hent⟩

/-- Witness for C7: `color = "green"` overrides `entity_type = "method"`;
the entity color applies when no color is set; unrecognized values fall back
to the default. -/
theorem C7_color_resolution_witness :
    _get_color_for_citation ⟨"t", 1, none, some "method", some "green"⟩
      = (0, 1, 0) ∧
    _get_color_for_citation ⟨"t", 1, none, some "method", none⟩ = (0, 1, 0) ∧
    _get_color_for_citation ⟨"t", 1, none, some "nope", some "nah"⟩
      = (1, 1, 0) := by
  refine ⟨(C7_color_resolution _).1 "green" (0, 1, 0) rfl (by decide),
    (C7_color_resolution _).2.1 (fun c hc => by cases hc) "method" (0, 1, 0)
      rfl (by decide),
    (C7_color_resolution _).2.2 ?_ ?_⟩
  · intro c hc
    injection hc with hc
    subst hc
    decide
  · intro e he
    injection he with he
    subst he
    decide

theorem colorKeys_lower_fixed (name : String) (rgb : Rgb)
    (h : COLOR_NAMES name = some rgb) : lowerS name = name := by
  unfold COLOR_NAMES at h
  split_ifs at h with h1 h2 h3 h4 h5 h6 h7 h8 h9
  · subst h1; rfl
  · subst h2; rfl
  · subst h3; rfl
  · subst h4; rfl
  · subst h5; rfl
  · subst h6; rfl
  · subst h7; rfl
  · subst h8; rfl
  · subst h9; rfl

theorem entityKeys_lower_fixed (name : String) (rgb : Rgb)
    (h : ENTITY_COLORS name = some rgb) : lowerS name = name := by
  unfold ENTITY_COLORS at h
  split_ifs at h with h1 h2 h3 h4 h5 h6 h7
  · subst h1; rfl
  · subst h2; rfl
  · subst h3; rfl
  · subst h4; rfl
  · subst h5; rfl
  · subst h6; rfl
  · subst h7; rfl

/-- Claim C10: color and entity-type lookup is case-insensitive: a `color` (or
`entity_type`) value whose lowercasing is a recognized name resolves to the
same RGB as the lowercase name itself. -/
theorem C10_case_insensitive_lookup :
    (∀ (cit : PageLocationCitation) (v name : String) (rgb : Rgb),
      cit.color = some v → lowerS v = name → COLOR_NAMES name = some rgb →
      _get_color_for_citation cit = rgb ∧
      _get_color_for_citation { cit with color := some name } = rgb) ∧
    (∀ (cit : PageLocationCitation) (v name : String) (rgb : Rgb),
      (∀ c, cit.color = some c → COLOR_NAMES (lowerS c) = none) →
      cit.entity_type = some v → lowerS v = name → ENTITY_COLORS name = some rgb →
      _get_color_for_citation cit = rgb ∧
      _get_color_for_citation { cit with entity_type := some name } = rgb) := by
  constructor
  · intro cit v name rgb hc hlow hname
    constructor
    · exact getColor_of_color hc (by rw [hlow]; exact hname)
    · exact @getColor_of_color { cit with color := some name } name rgb rfl
        (by rw [colorKeys_lower_fixed name rgb hname]; exact hname)
  · intro cit v name rgb hcol he hlow hname
    constructor
    · exact getColor_of_entity hcol he (by rw [hlow]; exact hname)
    · exact @getColor_of_entity { cit with entity_type := some name } name rgb
        (fun c hc => hcol c hc) rfl
        (by rw [entityKeys_lower_fixed name rgb hname]; exact hname)

/-- Witness for C10: `"YeLLoW"` resolves like `"yellow"`, and
`"MetHod"` like `"method"`. -/
theorem C10_case_insensitive_lookup_witness :
    _get_color_for_citation ⟨"t", 1, none, none, some "YeLLoW"⟩ = (1, 1, 0) ∧
    _get_color_for_citation ⟨"t", 1, none, some "MetHod", none⟩ = (0, 1, 0) := by
  refine ⟨(C10_case_insensitive_lookup.1 _ "YeLLoW" "yellow" (1, 1, 0) rfl
      (by decide) (by decide)).1,
    (C10_case_insensitive_lookup.2 _ "MetHod" "method" (0, 1, 0)
      (fun c hc => by cases hc) rfl (by decide) (by decide)).1⟩

